import Mathlib

/-!
Shallow embedding of the connector-schema upload page
(`src/unnamed/part_000`): the schema data model, the schema merge engine
(`mergeSchemas`), the schema edit model (`toggleKey`, `removeEntity`, ...),
the fixed-delay polling routine (`pollResultWithDelays`), the correlation-id
generator (`id30Base62`), and the upload-item list operations
(`onPick`, `setStatus`, the end-of-submission status broadcasts).

TypeScript arrays become `List`, objects become structures, JS `Map`
(insertion-ordered, key-replacing) becomes an association list with the
corresponding update rule, and the `crypto.getRandomValues` byte stream
becomes an explicit `Nat → Nat` source with a fuel bound (the source loop
`while (out.length < len)` has no intrinsic bound).
-/

namespace PSXml

/-! ### Schema data model (source lines 85-88) -/

/-- `type AttrType = "String" | "Int" | "Bool" | "Datetime"` -/
inductive AttrType where
  | String
  | Int
  | Bool
  | Datetime
deriving DecidableEq, Repr

/-- `type Attribute = { name: string; type: AttrType; MultiValue: boolean; IsKey?: boolean }`.
The optional `IsKey` is modelled as a `Bool` (absent ⇒ `false`, matching the
`!!a.IsKey` readings elsewhere in the file). -/
structure Attribute where
  name : String
  type : AttrType
  MultiValue : Bool
  IsKey : Bool
deriving DecidableEq, Repr

/-- `type Entity = { name: string; attributes: Attribute[] }` -/
structure Entity where
  name : String
  attributes : List Attribute
deriving DecidableEq, Repr

/-- `type Schema = { name: string; version: string; entities: Entity[] }` -/
structure Schema where
  name : String
  version : String
  entities : List Entity
deriving DecidableEq, Repr

/-! ### Merge engine (source lines 35-81)

In the typed embedding every `Entity` value passes the runtime shape probe
`isEnt` (its `name` is a string and `attributes` is an array), and every
`Schema` value passes `isSchema` (`entities` is an array), so the two
duck-type filters are identically true here; what remains of them is the
single-vs-array input dispatch, kept as `MergeInput`. -/

/-- The argument of `mergeSchemas(input)`: a single schema-shaped object or
an array of them (non-schema array elements are discarded by `isSchema`
before the loop, so the surviving list is a `List Schema`). -/
inductive MergeInput where
  | one (s : Schema)
  | many (ds : List Schema)

/-- The `docs` list that survives the `isSchema` filter. -/
def MergeInput.docs : MergeInput → List Schema
  | .one s => [s]
  | .many ds => ds

/-- The attribute de-dupe loop of `mergeSchemas` (lines 68-75): for each
incoming attribute `a`, push it onto the target entity's attribute list iff
`a.name` is truthy (non-empty) and no attribute of that name is present yet
(the `have` set is exactly the set of names of the accumulated list). -/
def mergeAttrs (tgt : List Attribute) (incoming : List Attribute) : List Attribute :=
  incoming.foldl
    (fun acc a =>
      if a.name ≠ "" ∧ a.name ∉ acc.map Attribute.name then acc ++ [a] else acc)
    tgt

/-- One step of the entity loop of `mergeSchemas` (lines 57-76) on the
insertion-ordered name-keyed accumulator (`byName : Map<string, Entity>`,
kept here as the ordered list of its values): an unseen entity name is
appended with its attributes cloned as-is; a seen name merges attributes
into the existing target via `mergeAttrs`. -/
def addEntityDoc (acc : List Entity) (e : Entity) : List Entity :=
  if acc.any (fun t => t.name = e.name) then
    acc.map (fun t =>
      if t.name = e.name then { t with attributes := mergeAttrs t.attributes e.attributes }
      else t)
  else acc ++ [{ name := e.name, attributes := e.attributes }]

/-- `mergeSchemas` (lines 43-81) on the filtered document list: result name
is the first truthy `name` across docs else `"Connector"`, likewise
`version` with default `"1.0.0"`; entities are combined with `addEntityDoc`
scanning documents in order. -/
def mergeSchemas (docs : List Schema) : Schema :=
  { name := ((docs.find? (fun d => d.name ≠ "")).map Schema.name).getD "Connector"
    version := ((docs.find? (fun d => d.version ≠ "")).map Schema.version).getD "1.0.0"
    entities := docs.foldl (fun acc d => d.entities.foldl addEntityDoc acc) [] }

/-- `mergeSchemas` on the raw single-or-array input. -/
def mergeSchemasInput (input : MergeInput) : Schema :=
  mergeSchemas input.docs

/-- Entity names of a schema. -/
def entityNames (s : Schema) : List String :=
  s.entities.map Entity.name

/-- Attribute names of an entity. -/
def attrNames (e : Entity) : List String :=
  e.attributes.map Attribute.name

/-! ### Schema edit model (source lines 359-453)

Each editing action runs on the current schema (the `if (!schema) return`
React guard is the empty-editor state and is modelled by acting on a
present `Schema` value) and on the `selectedEntity` index where the source
updates it. -/

/-- Update the element at position `i` of a list, leaving everything else in
place (the shape of every `s.entities[i].… = …` in-place mutation). Out of
range, the list is unchanged. -/
def updateAt {α : Type} (l : List α) (i : Nat) (f : α → α) : List α :=
  match l, i with
  | [], _ => []
  | x :: rest, 0 => f x :: rest
  | x :: rest, n + 1 => x :: updateAt rest n f

/-- The `forEach` body of `toggleKey` (lines 449-451) starting at index `j`:
`attr.IsKey = makeKey && idx === ai` for every attribute of the entity. -/
def setKeysFrom (makeKey : Bool) (ai : Nat) : Nat → List Attribute → List Attribute
  | _, [] => []
  | j, a :: rest =>
    { a with IsKey := makeKey && j == ai } :: setKeysFrom makeKey ai (j + 1) rest

/-- `toggleKey(ei, ai, makeKey)` (lines 446-453): rewrite the key flag of
every attribute of entity `ei` to `makeKey && idx === ai`. -/
def toggleKey (s : Schema) (ei ai : Nat) (makeKey : Bool) : Schema :=
  { s with
    entities := updateAt s.entities ei
      (fun e => { e with attributes := setKeysFrom makeKey ai 0 e.attributes }) }

/-- The page state the remove-entity action touches: the current schema
(`null` before anything is loaded) and the selected-entity index. -/
structure EditorState where
  schema : Option Schema
  selectedEntity : Nat
deriving DecidableEq, Repr

/-- `removeEntity(idx)` (lines 401-419): no-op when there is no schema or
`idx` is outside `[0, entities.length)`; otherwise splice out entity `idx`,
and set the selection to `0` when the schema became empty, else to
`Math.max(0, Math.min(idx, entities.length - 1))` over the shrunken list. -/
def removeEntity (st : EditorState) (idx : Int) : EditorState :=
  match st.schema with
  | none => st
  | some s =>
    if idx < 0 ∨ (s.entities.length : Int) ≤ idx then st
    else
      let ents := s.entities.eraseIdx idx.toNat
      if ents.length = 0 then
        { schema := some { s with entities := ents }, selectedEntity := 0 }
      else
        { schema := some { s with entities := ents }
          selectedEntity := (max 0 (min idx ((ents.length : Int) - 1))).toNat }

/-! ### Upload item list (source lines 11-18, 173-193, 313-326) -/

/-- `type Status = "pending" | "uploading" | "done" | "error" | "processing"` -/
inductive Status where
  | pending
  | uploading
  | done
  | error
  | processing
deriving DecidableEq, Repr

/-- The fields of a picked `File` the page reads: `name`, `size`,
`lastModified`. -/
structure FileInfo where
  name : String
  size : Nat
  lastModified : Nat
deriving DecidableEq, Repr

/-- `type Item = { id, file, status, statusCode?, message? }` -/
structure Item where
  id : String
  file : FileInfo
  status : Status
  statusCode : Option Nat
  message : Option String
deriving DecidableEq, Repr

/-- The de-duplication key used by `onPick`: `` `${file.name}-${file.size}` ``. -/
def fileKey (f : FileInfo) : String :=
  f.name ++ "-" ++ toString f.size

/-- The key of an item, `` `${p.file.name}-${p.file.size}` ``. -/
def itemKey (it : Item) : String :=
  fileKey it.file

/-- The fresh item built for a picked file (lines 176-180):
`` id = `${f.name}-${f.size}-${f.lastModified}-${crypto.randomUUID()}` ``,
status `pending`. The random UUID is an input. -/
def mkItem (f : FileInfo) (uuid : String) : Item :=
  { id := f.name ++ "-" ++ toString f.size ++ "-" ++ toString f.lastModified ++ "-" ++ uuid
    file := f
    status := .pending
    statusCode := none
    message := none }

/-- The `next` array of `onPick`: one fresh item per picked file, the i-th
file paired with the i-th drawn UUID. -/
def mkItems (uuids : Nat → String) : List FileInfo → Nat → List Item
  | [], _ => []
  | f :: rest, i => mkItem f (uuids i) :: mkItems uuids rest (i + 1)

/-- One `map.set(k, v)` step on a JS `Map` kept as its insertion-ordered
entry list: an existing key keeps its position and takes the new value, a
new key is appended. -/
def mapSet (m : List (String × Item)) (k : String) (v : Item) : List (String × Item) :=
  if m.any (fun p => p.1 = k) then
    m.map (fun p => if p.1 = k then (k, v) else p)
  else m ++ [(k, v)]

/-- `onPick` (lines 173-187) on a non-empty pick: build the fresh items,
load the previous items into a key-indexed map, overwrite with the fresh
ones, and return the map's values in order. `uuids i` is the random UUID
drawn for the i-th picked file. -/
def onPick (prev : List Item) (files : List FileInfo) (uuids : Nat → String) : List Item :=
  let next := mkItems uuids files 0
  let m0 := prev.foldl (fun m p => mapSet m (itemKey p) p) []
  (next.foldl (fun m n => mapSet m (itemKey n) n) m0).map Prod.snd

/-- `removeOne(id)` (lines 188-190). -/
def removeOne (items : List Item) (id : String) : List Item :=
  items.filter (fun p => p.id ≠ id)

/-- `setStatus(id, status, message)` (lines 191-193). -/
def setStatus (items : List Item) (id : String) (status : Status)
    (message : Option String) : List Item :=
  items.map (fun it => if it.id = id then { it with status := status, message := message } else it)

/-- The end-of-submission broadcast of `submitAll` (lines 313-326): on a
successful poll every item becomes `done`/"Completed", on a failed poll
every item becomes `error` with the failure message — in both cases
regardless of the item's previous status. -/
def finishAll (items : List Item) (pollOk : Bool) (errMsg : String) : List Item :=
  if pollOk then
    items.map (fun i => { i with status := .done, message := some "Completed" })
  else
    items.map (fun i => { i with status := .error, message := some errMsg })

/-! ### Fixed-delay polling (source lines 196-206) -/

/-- `const POLL_DELAYS_MS = [10000, 15000, 15000, 10000, 15000]` -/
def POLL_DELAYS_MS : List Nat := [10000, 15000, 15000, 10000, 15000]

/-- The response body the poll reads: `j?.ok` and `j.result` (the payload is
kept as its JSON text; `none` is an absent/falsy `result`, and the empty
string is also falsy in `j?.ok && j.result`). -/
structure PollJson where
  jok : Bool
  result : Option String
deriving DecidableEq, Repr

/-- One `fetch` outcome of the poll loop: an HTTP failure
(`!res.ok`, carrying `` `${res.status} ${res.statusText}` ``) or an OK
response with its parsed JSON body. -/
inductive FetchResult where
  | notOk (err : String)
  | okResp (j : PollJson)
deriving DecidableEq, Repr

/-- Truthiness of `j.result`. -/
def resultTruthy : Option String → Bool
  | none => false
  | some s => s ≠ ""

/-- A well-formed poll response that carries no payload: HTTP-OK but
`j?.ok && j.result` falsy — the "pending" case that lets the loop continue. -/
def isPendingResp : FetchResult → Bool
  | .notOk _ => false
  | .okResp j => !(j.jok && resultTruthy j.result)

/-- What `pollResultWithDelays` returns. -/
inductive PollOutcome where
  | success (result : String)
  | failure (error : String)
deriving DecidableEq, Repr

/-- The `for` loop of `pollResultWithDelays` over the remaining delay
schedule: each iteration waits one scheduled delay, issues exactly one poll
(`resp i` is the response to the i-th poll of this run), returns the HTTP
error on `!res.ok`, returns success on `j?.ok && j.result`, and otherwise
continues; the exhausted schedule yields the terminal failure. Besides the
outcome it counts the polls issued (one per executed wait). -/
def pollLoop (resp : Nat → FetchResult) : Nat → List Nat → PollOutcome × Nat
  | _, [] => (.failure "No result within polling window", 0)
  | i, _d :: ds =>
    match resp i with
    | .notOk e => (.failure e, 1)
    | .okResp j =>
      if j.jok && resultTruthy j.result then (.success (j.result.getD ""), 1)
      else
        let rest := pollLoop resp (i + 1) ds
        (rest.1, rest.2 + 1)

/-- `pollResultWithDelays` (lines 197-206) over the fixed 5-delay schedule,
together with the number of polls it issued. -/
def pollResultWithDelays (resp : Nat → FetchResult) : PollOutcome × Nat :=
  pollLoop resp 0 POLL_DELAYS_MS

/-! ### Correlation-id generation (source lines 93-107) -/

/-- `const ALPHABET = "0123456789...XYZ"` (62 symbols). -/
def ALPHABET : String :=
  "0123456789abcdefghijklmnopqrstuvwxyzABCDEFGHIJKLMNOPQRSTUVWXYZ"

/-- `const limit = 256 - (256 % n)` with `n = ALPHABET.length`: the largest
multiple of 62 that fits in a byte (248). -/
def rejectLimit : Nat := 256 - 256 % ALPHABET.length

/-- The symbol produced from an accepted byte: `ALPHABET[v % n]`. -/
def alphaChar (v : Nat) : Char :=
  ALPHABET.data.getD (v % ALPHABET.length) ' '

/-- The sampling loop of `id30Base62`: consume bytes of the random source in
order (`src j` is the j-th random byte; the source refills its buffer
freely, so the stream is unbounded), reject a byte `≥ limit`, turn an
accepted byte into `ALPHABET[v % n]`, and stop after `need` symbols. `fuel`
bounds the bytes examined, since `while (out.length < len)` terminates only
when the source eventually yields accepted bytes. -/
def id30Aux (src : Nat → Nat) : Nat → Nat → Nat → Option (List Char)
  | 0, _, _ => some []
  | _ + 1, 0, _ => none
  | need + 1, fuel + 1, j =>
    let v := src j
    if v < rejectLimit then
      (id30Aux src need fuel (j + 1)).map (fun cs => alphaChar v :: cs)
    else
      id30Aux src (need + 1) fuel (j + 1)

/-- `id30Base62(len = 30)` over an explicit byte source, with fuel. -/
def id30Base62 (src : Nat → Nat) (len : Nat) (fuel : Nat) : Option String :=
  (id30Aux src len fuel 0).map List.asString

/-! ### Derived notions used by the statements -/

/-- Default attribute used only as the `getD` fallback in statements. -/
def defAttr : Attribute :=
  { name := "", type := .String, MultiValue := false, IsKey := false }

/-- Default entity used only as the `getD` fallback in statements. -/
def defEnt : Entity := { name := "", attributes := [] }

/-- The attribute list of entity `ei` of a schema. -/
def entAttrs (s : Schema) (ei : Nat) : List Attribute :=
  (s.entities.getD ei defEnt).attributes

/-- Number of attributes of a list whose key flag is set. -/
def keyCount (attrs : List Attribute) : Nat :=
  attrs.countP (fun a => a.IsKey)

/-- A sequence of `toggleKey` operations on entity `ei`, applied in order
(`(ai, makeKey)` per operation). -/
def applyToggles (s : Schema) (ei : Nat) (ops : List (Nat × Bool)) : Schema :=
  ops.foldl (fun t p => toggleKey t ei p.1 p.2) s

/-- A concrete two-key entity state (reachable by loading a JSON document in
which both attributes carry `IsKey: true`; the normalization pass keeps
every flag as given). -/
def twoKeySchema : Schema :=
  { name := "S", version := "1"
    entities := [{ name := "E"
                   attributes :=
                     [{ name := "x", type := .String, MultiValue := false, IsKey := true },
                      { name := "y", type := .Bool, MultiValue := false, IsKey := true }] }] }

/-! ### Helper lemmas: `updateAt` and `setKeysFrom` -/

theorem updateAt_length {α : Type} (l : List α) (i : Nat) (f : α → α) :
    (updateAt l i f).length = l.length := by
  induction l generalizing i with
  | nil => simp [updateAt]
  | cons x rest ih =>
    cases i with
    | zero => simp [updateAt]
    | succ n => simp [updateAt, ih]

theorem updateAt_getD_self {α : Type} (l : List α) (i : Nat) (f : α → α) (d : α)
    (h : i < l.length) : (updateAt l i f).getD i d = f (l.getD i d) := by
  induction l generalizing i with
  | nil => simp at h
  | cons x rest ih =>
    cases i with
    | zero => simp [updateAt]
    | succ n => simpa [updateAt] using ih n (by simpa using h)

theorem updateAt_getD_ne {α : Type} (l : List α) (i j : Nat) (f : α → α) (d : α)
    (h : j ≠ i) : (updateAt l i f).getD j d = l.getD j d := by
  induction l generalizing i j with
  | nil => simp [updateAt]
  | cons x rest ih =>
    cases i with
    | zero =>
      cases j with
      | zero => exact absurd rfl h
      | succ m => simp [updateAt]
    | succ n =>
      cases j with
      | zero => simp [updateAt]
      | succ m => simpa [updateAt] using ih n m (by omega)

theorem setKeysFrom_length (mk : Bool) (ai : Nat) (j : Nat) (l : List Attribute) :
    (setKeysFrom mk ai j l).length = l.length := by
  induction l generalizing j with
  | nil => simp [setKeysFrom]
  | cons a rest ih => simp [setKeysFrom, ih]

theorem setKeysFrom_getD (mk : Bool) (ai : Nat) (l : List Attribute) (j k : Nat) (d : Attribute)
    (h : k < l.length) :
    (setKeysFrom mk ai j l).getD k d
      = { l.getD k d with IsKey := mk && (j + k) == ai } := by
  induction l generalizing j k with
  | nil => simp at h
  | cons a rest ih =>
    cases k with
    | zero => simp [setKeysFrom]
    | succ m =>
      have := ih (j + 1) m (by simpa using h)
      simpa [setKeysFrom, Nat.add_assoc, Nat.add_comm, Nat.add_left_comm] using this

theorem keyCount_setKeysFrom (mk : Bool) (ai : Nat) (j : Nat) (l : List Attribute) :
    keyCount (setKeysFrom mk ai j l)
      = if mk = true ∧ j ≤ ai ∧ ai < j + l.length then 1 else 0 := by
  induction l generalizing j with
  | nil =>
    simp only [setKeysFrom, keyCount, List.countP_nil, List.length_nil]
    rw [if_neg]
    rintro ⟨_, h1, h2⟩
    omega
  | cons a rest ih =>
    cases mk with
    | false =>
      simp only [setKeysFrom, keyCount, List.countP_cons, Bool.false_and] at ih ⊢
      rw [ih (j + 1)]
      simp
    | true =>
      simp only [setKeysFrom, keyCount, List.countP_cons, Bool.true_and,
        List.length_cons] at ih ⊢
      rw [ih (j + 1)]
      by_cases hj : j = ai
      · subst hj
        rw [if_neg (by rintro ⟨_, h, _⟩; omega),
            if_pos (⟨trivial, Nat.le_refl _, by omega⟩ :
              True ∧ j ≤ j ∧ j < j + (rest.length + 1))]
        simp
      · have helem : ¬((j == ai) = true) := by simp [hj]
        rw [if_neg helem]
        by_cases hA : j + 1 ≤ ai ∧ ai < j + 1 + rest.length
        · rw [if_pos (⟨trivial, hA.1, hA.2⟩ :
              True ∧ j + 1 ≤ ai ∧ ai < j + 1 + rest.length),
              if_pos (⟨trivial, by omega, by omega⟩ :
              True ∧ j ≤ ai ∧ ai < j + (rest.length + 1))]
        · rw [if_neg (by rintro ⟨_, h1, h2⟩; exact hA ⟨h1, h2⟩),
              if_neg (by rintro ⟨_, h1, h2⟩; exact hA ⟨by omega, by omega⟩)]

theorem entAttrs_toggleKey (s : Schema) (ei ai : Nat) (mk : Bool)
    (hei : ei < s.entities.length) :
    entAttrs (toggleKey s ei ai mk) ei = setKeysFrom mk ai 0 (entAttrs s ei) := by
  simp only [entAttrs, toggleKey]
  rw [updateAt_getD_self _ _ _ _ hei]

theorem keyCount_toggleKey_le (s : Schema) (ei ai : Nat) (mk : Bool)
    (hei : ei < s.entities.length) :
    keyCount (entAttrs (toggleKey s ei ai mk) ei) ≤ 1 := by
  rw [entAttrs_toggleKey s ei ai mk hei, keyCount_setKeysFrom]
  split <;> omega

theorem toggleKey_entities_length (s : Schema) (ei ai : Nat) (mk : Bool) :
    (toggleKey s ei ai mk).entities.length = s.entities.length := by
  simp [toggleKey, updateAt_length]

theorem keyCount_applyToggles_le (ei : Nat) (ops : List (Nat × Bool)) :
    ∀ t : Schema, ei < t.entities.length → keyCount (entAttrs t ei) ≤ 1 →
      keyCount (entAttrs (applyToggles t ei ops) ei) ≤ 1 := by
  induction ops with
  | nil => intro t _ h; simpa [applyToggles] using h
  | cons op rest ih =>
    intro t hlen _
    have h1 : keyCount (entAttrs (toggleKey t ei op.1 op.2) ei) ≤ 1 :=
      keyCount_toggleKey_le t ei op.1 op.2 hlen
    have h2 : ei < (toggleKey t ei op.1 op.2).entities.length := by
      rw [toggleKey_entities_length]; exact hlen
    simpa [applyToggles] using ih (toggleKey t ei op.1 op.2) h2 h1

/-! ### Helper lemmas: merge engine -/

theorem mergeAttrs_cons (tgt : List Attribute) (a : Attribute) (rest : List Attribute) :
    mergeAttrs tgt (a :: rest)
      = mergeAttrs
          (if a.name ≠ "" ∧ a.name ∉ tgt.map Attribute.name then tgt ++ [a] else tgt)
          rest := rfl

theorem mergeAttrs_names_nodup (inc : List Attribute) :
    ∀ tgt : List Attribute, (tgt.map Attribute.name).Nodup →
      ((mergeAttrs tgt inc).map Attribute.name).Nodup := by
  induction inc with
  | nil => intro tgt h; simpa [mergeAttrs] using h
  | cons a rest ih =>
    intro tgt h
    rw [mergeAttrs_cons]
    apply ih
    split
    · rename_i hc
      rw [List.map_append]
      simp only [List.map_cons, List.map_nil]
      rw [List.nodup_append]
      exact ⟨h, List.nodup_singleton _, by
        intro x hx hx1
        simp only [List.mem_singleton] at hx1
        exact hc.2 (hx1 ▸ hx)⟩
    · exact h

theorem mergeAttrs_subsumed (tgt : List Attribute) (inc : List Attribute)
    (h : ∀ a ∈ inc, a.name = "" ∨ a.name ∈ tgt.map Attribute.name) :
    mergeAttrs tgt inc = tgt := by
  induction inc with
  | nil => rfl
  | cons a rest ih =>
    rw [mergeAttrs_cons]
    have hcond : ¬(a.name ≠ "" ∧ a.name ∉ tgt.map Attribute.name) := by
      rcases h a (by simp) with h1 | h1
      · intro hc; exact hc.1 h1
      · intro hc; exact hc.2 h1
    rw [if_neg hcond]
    exact ih (fun b hb => h b (by simp [hb]))

theorem addEntityDoc_names (acc : List Entity) (e : Entity) :
    (addEntityDoc acc e).map Entity.name
      = if acc.any (fun t => t.name = e.name) then acc.map Entity.name
        else acc.map Entity.name ++ [e.name] := by
  unfold addEntityDoc
  split
  · rw [List.map_map]
    apply List.map_congr_left
    intro t _
    by_cases ht : t.name = e.name <;> simp [Function.comp, ht]
  · rw [List.map_append]
    rfl

theorem addEntityDoc_names_nodup (acc : List Entity) (e : Entity)
    (h : (acc.map Entity.name).Nodup) :
    ((addEntityDoc acc e).map Entity.name).Nodup := by
  rw [addEntityDoc_names]
  split
  · exact h
  · rename_i hc
    rw [List.nodup_append]
    refine ⟨h, List.nodup_singleton _, ?_⟩
    intro x hx hx1
    simp only [List.mem_singleton] at hx1
    subst hx1
    rcases List.mem_map.mp hx with ⟨t, ht, hte⟩
    exact hc (List.any_eq_true.mpr ⟨t, ht, by simp [hte]⟩)

theorem addEntityDoc_attrs_nodup (acc : List Entity) (e : Entity)
    (hacc : ∀ t ∈ acc, (attrNames t).Nodup) (he : (attrNames e).Nodup) :
    ∀ t ∈ addEntityDoc acc e, (attrNames t).Nodup := by
  unfold addEntityDoc
  split
  · intro t ht
    rcases List.mem_map.mp ht with ⟨u, hu, rfl⟩
    by_cases h : u.name = e.name
    · simp only [if_pos h, attrNames]
      exact mergeAttrs_names_nodup e.attributes u.attributes (hacc u hu)
    · simpa [if_neg h] using hacc u hu
  · intro t ht
    rcases List.mem_append.mp ht with h | h
    · exact hacc t h
    · simp only [List.mem_singleton] at h
      subst h
      exact he

theorem foldl_addEntityDoc_nodup (es : List Entity) :
    ∀ acc : List Entity, (acc.map Entity.name).Nodup →
      (∀ t ∈ acc, (attrNames t).Nodup) → (∀ e ∈ es, (attrNames e).Nodup) →
      ((es.foldl addEntityDoc acc).map Entity.name).Nodup
        ∧ ∀ t ∈ es.foldl addEntityDoc acc, (attrNames t).Nodup := by
  induction es with
  | nil => intro acc h1 h2 _; exact ⟨h1, h2⟩
  | cons e rest ih =>
    intro acc h1 h2 h3
    simp only [List.foldl_cons]
    exact ih (addEntityDoc acc e) (addEntityDoc_names_nodup acc e h1)
      (addEntityDoc_attrs_nodup acc e h2 (h3 e (by simp)))
      (fun x hx => h3 x (by simp [hx]))

/-- The entity-name uniqueness part of the merge invariant holds with no
hypothesis at all: the accumulator is keyed by name. -/
theorem foldl_docs_nodup (docs : List Schema) :
    ∀ acc : List Entity, (acc.map Entity.name).Nodup →
      (∀ t ∈ acc, (attrNames t).Nodup) →
      (∀ d ∈ docs, ∀ e ∈ d.entities, (attrNames e).Nodup) →
      ((docs.foldl (fun acc d => d.entities.foldl addEntityDoc acc) acc).map
          Entity.name).Nodup
        ∧ ∀ t ∈ docs.foldl (fun acc d => d.entities.foldl addEntityDoc acc) acc,
            (attrNames t).Nodup := by
  induction docs with
  | nil => intro acc h1 h2 _; exact ⟨h1, h2⟩
  | cons d rest ih =>
    intro acc h1 h2 h3
    simp only [List.foldl_cons]
    have step := foldl_addEntityDoc_nodup d.entities acc h1 h2
      (fun e he => h3 d (by simp) e he)
    exact ih _ step.1 step.2 (fun x hx e he => h3 x (by simp [hx]) e he)

/-- Entity-name uniqueness alone, with no attribute hypothesis. -/
theorem addEntityDoc_names_nodup_only (es : List Entity) :
    ∀ acc : List Entity, (acc.map Entity.name).Nodup →
      ((es.foldl addEntityDoc acc).map Entity.name).Nodup := by
  induction es with
  | nil => intro acc h; exact h
  | cons e rest ih =>
    intro acc h
    simp only [List.foldl_cons]
    exact ih (addEntityDoc acc e) (addEntityDoc_names_nodup acc e h)

theorem foldl_docs_names_nodup (docs : List Schema) :
    ∀ acc : List Entity, (acc.map Entity.name).Nodup →
      ((docs.foldl (fun acc d => d.entities.foldl addEntityDoc acc) acc).map
          Entity.name).Nodup := by
  induction docs with
  | nil => intro acc h; exact h
  | cons d rest ih =>
    intro acc h
    simp only [List.foldl_cons]
    exact ih _ (addEntityDoc_names_nodup_only d.entities acc h)

theorem foldl_addEntityDoc_fresh (es : List Entity) :
    ∀ acc : List Entity, (∀ e ∈ es, e.name ∉ acc.map Entity.name) →
      ((es.map Entity.name).Nodup) →
      es.foldl addEntityDoc acc = acc ++ es := by
  induction es with
  | nil => intro acc _ _; simp
  | cons e rest ih =>
    intro acc hfresh hnd
    simp only [List.foldl_cons]
    have hany : ¬acc.any (fun t => t.name = e.name) = true := by
      intro hc
      rcases List.any_eq_true.mp hc with ⟨t, ht, hte⟩
      simp only [decide_eq_true_eq] at hte
      exact hfresh e (by simp) (List.mem_map.mpr ⟨t, ht, hte⟩)
    have hstep : addEntityDoc acc e = acc ++ [e] := by
      unfold addEntityDoc
      rw [if_neg hany]
    rw [hstep]
    rw [ih (acc ++ [e]) ?_ ?_]
    · simp
    · intro x hx
      rw [List.map_append]
      intro hmem
      rcases List.mem_append.mp hmem with h | h
      · exact hfresh x (by simp [hx]) h
      · simp only [List.map_cons, List.map_nil, List.mem_singleton] at h
        rw [List.map_cons, List.nodup_cons] at hnd
        exact hnd.1 (h ▸ List.mem_map.mpr ⟨x, hx, rfl⟩)
    · rw [List.map_cons, List.nodup_cons] at hnd
      exact hnd.2

theorem addEntityDoc_self (es : List Entity) (hn : (es.map Entity.name).Nodup)
    (e : Entity) (he : e ∈ es) : addEntityDoc es e = es := by
  unfold addEntityDoc
  rw [if_pos (List.any_eq_true.mpr ⟨e, he, by simp⟩)]
  have : ∀ t ∈ es,
      (if t.name = e.name then
        { t with attributes := mergeAttrs t.attributes e.attributes } else t) = t := by
    intro t ht
    by_cases h : t.name = e.name
    · have hte : t = e := List.inj_on_of_nodup_map hn ht he h
      subst hte
      rw [if_pos rfl, mergeAttrs_subsumed t.attributes t.attributes
        (fun a ha => Or.inr (List.mem_map.mpr ⟨a, ha, rfl⟩))]
    · rw [if_neg h]
  rw [List.map_congr_left this]
  simp

theorem foldl_addEntityDoc_self (es : List Entity) (hn : (es.map Entity.name).Nodup) :
    ∀ l : List Entity, (∀ e ∈ l, e ∈ es) → l.foldl addEntityDoc es = es := by
  intro l
  induction l with
  | nil => intro _; rfl
  | cons e rest ih =>
    intro hsub
    simp only [List.foldl_cons]
    rw [addEntityDoc_self es hn e (hsub e (by simp))]
    exact ih (fun x hx => hsub x (by simp [hx]))

/-! ### Claim theorems: schema edit model -/

/-- C3: after any non-empty sequence of `toggleKey` operations on entity
`ei`, the number of that entity's attributes with the key flag set is
exactly 0 or 1; and a single `toggleKey` call with `makeKey = true` on
attribute `ai` leaves the key flag of every other attribute of that entity
cleared. (The sequence must be non-empty: `toggleKey` establishes the
invariant on its own, whatever state a loaded document put the entity in.) -/
theorem toggleKey_at_most_one_key (s : Schema) (ei : Nat) (ops : List (Nat × Bool))
    (hops : ops ≠ []) (hei : ei < s.entities.length) :
    (keyCount (entAttrs (applyToggles s ei ops) ei) = 0 ∨
     keyCount (entAttrs (applyToggles s ei ops) ei) = 1)
    ∧ ∀ ai j, j < (entAttrs s ei).length → j ≠ ai →
        ((entAttrs (toggleKey s ei ai true) ei).getD j defAttr).IsKey = false := by
  constructor
  · obtain ⟨op, rest, rfl⟩ : ∃ op rest, ops = op :: rest := by
      cases ops with
      | nil => exact absurd rfl hops
      | cons op rest => exact ⟨op, rest, rfl⟩
    have h0 : keyCount (entAttrs (toggleKey s ei op.1 op.2) ei) ≤ 1 :=
      keyCount_toggleKey_le s ei op.1 op.2 hei
    have h2 : ei < (toggleKey s ei op.1 op.2).entities.length := by
      rw [toggleKey_entities_length]; exact hei
    have happ : applyToggles s ei (op :: rest)
        = applyToggles (toggleKey s ei op.1 op.2) ei rest := by
      simp [applyToggles]
    rw [happ]
    have := keyCount_applyToggles_le ei rest (toggleKey s ei op.1 op.2) h2 h0
    omega
  · intro ai j hj hne
    rw [entAttrs_toggleKey s ei ai true hei, setKeysFrom_getD true ai _ 0 j defAttr hj]
    simp [hne]

/-- C3 witness: a concrete single-toggle run on the two-key schema. -/
theorem toggleKey_at_most_one_key_witness :
    ([((1 : Nat), true)] ≠ ([] : List (Nat × Bool)))
    ∧ 0 < twoKeySchema.entities.length
    ∧ (keyCount (entAttrs (applyToggles twoKeySchema 0 [(1, true)]) 0) = 0 ∨
       keyCount (entAttrs (applyToggles twoKeySchema 0 [(1, true)]) 0) = 1) :=
  ⟨by decide, by decide,
    (toggleKey_at_most_one_key twoKeySchema 0 [(1, true)] (by decide) (by decide)).1⟩

/-- C8 counterexample: on an entity whose attributes both carry the key
flag, `toggleKey(0, 0, false)` also clears the key flag of the *other*
attribute (index 1), so the operation does not leave every other
attribute's `IsKey` unchanged. -/
theorem toggleKey_false_touches_others :
    ((entAttrs twoKeySchema 0).getD 1 defAttr).IsKey = true
    ∧ ((entAttrs (toggleKey twoKeySchema 0 0 false) 0).getD 1 defAttr).IsKey = false := by
  decide

/-- C8 amended: `toggleKey` with `makeKey = false` clears the key flag of
*every* attribute of entity `ei` (the named one included); everything else
— the schema's name and version, every other entity, the entity's name,
and each attribute's name, type and multi-value flag — is unchanged. -/
theorem toggleKey_false_clears_entity (s : Schema) (ei ai : Nat)
    (hei : ei < s.entities.length) :
    (toggleKey s ei ai false).name = s.name
    ∧ (toggleKey s ei ai false).version = s.version
    ∧ (toggleKey s ei ai false).entities.length = s.entities.length
    ∧ (∀ j, j ≠ ei →
        (toggleKey s ei ai false).entities.getD j defEnt = s.entities.getD j defEnt)
    ∧ ((toggleKey s ei ai false).entities.getD ei defEnt).name
        = (s.entities.getD ei defEnt).name
    ∧ (entAttrs (toggleKey s ei ai false) ei).length = (entAttrs s ei).length
    ∧ ∀ j, j < (entAttrs s ei).length →
        ((entAttrs (toggleKey s ei ai false) ei).getD j defAttr).name
            = ((entAttrs s ei).getD j defAttr).name
        ∧ ((entAttrs (toggleKey s ei ai false) ei).getD j defAttr).type
            = ((entAttrs s ei).getD j defAttr).type
        ∧ ((entAttrs (toggleKey s ei ai false) ei).getD j defAttr).MultiValue
            = ((entAttrs s ei).getD j defAttr).MultiValue
        ∧ ((entAttrs (toggleKey s ei ai false) ei).getD j defAttr).IsKey = false := by
  refine ⟨rfl, rfl, toggleKey_entities_length s ei ai false, ?_, ?_, ?_, ?_⟩
  · intro j hj
    simp only [toggleKey]
    exact updateAt_getD_ne s.entities ei j _ defEnt hj
  · simp only [toggleKey]
    rw [updateAt_getD_self _ _ _ _ hei]
  · rw [entAttrs_toggleKey s ei ai false hei, setKeysFrom_length]
  · intro j hj
    rw [entAttrs_toggleKey s ei ai false hei,
      setKeysFrom_getD false ai _ 0 j defAttr hj]
    simp

/-- C8 amended witness: the concrete two-key schema, attribute index 1. -/
theorem toggleKey_false_clears_entity_witness :
    0 < twoKeySchema.entities.length
    ∧ ((entAttrs (toggleKey twoKeySchema 0 0 false) 0).getD 1 defAttr).IsKey = false :=
  ⟨by decide,
    ((toggleKey_false_clears_entity twoKeySchema 0 0 (by decide)).2.2.2.2.2.2 1
      (by decide)).2.2.2⟩

/-- A concrete three-entity schema (the spec's remove-entity clamp
scenario). -/
def threeEntitySchema : Schema :=
  { name := "N", version := "V"
    entities := [{ name := "A", attributes := [] }, { name := "B", attributes := [] },
                 { name := "C", attributes := [] }] }

/-- C4: `removeEntity(i)` is a no-op when `i` is outside
`[0, entityCount)`; on success the schema shrinks by one entity and the
selected index is 0 when the schema became empty, and otherwise stays
strictly below the new entity count (in particular never negative — the
selection is a `Nat` clamped through `max 0`). -/
theorem removeEntity_no_op_or_clamp (st : EditorState) (idx : Int) (s : Schema)
    (hs : st.schema = some s) :
    ((idx < 0 ∨ (s.entities.length : Int) ≤ idx) → removeEntity st idx = st)
    ∧ (0 ≤ idx → idx < (s.entities.length : Int) →
        ∃ s2, (removeEntity st idx).schema = some s2
          ∧ s2.entities.length = s.entities.length - 1
          ∧ ((s2.entities.length = 0 ∧ (removeEntity st idx).selectedEntity = 0)
             ∨ (removeEntity st idx).selectedEntity < s2.entities.length)) := by
  constructor
  · intro h
    simp only [removeEntity, hs]
    rw [if_pos h]
  · intro h0 hlt
    have hcond : ¬(idx < 0 ∨ (s.entities.length : Int) ≤ idx) := by omega
    have hk : idx.toNat < s.entities.length := by omega
    have hlen : (s.entities.eraseIdx idx.toNat).length = s.entities.length - 1 :=
      List.length_eraseIdx_of_lt hk
    simp only [removeEntity, hs]
    rw [if_neg hcond]
    by_cases hz : (s.entities.eraseIdx idx.toNat).length = 0
    · rw [if_pos hz]
      exact ⟨_, rfl, by simpa using hlen, Or.inl ⟨by simpa using hz, rfl⟩⟩
    · rw [if_neg hz]
      refine ⟨_, rfl, by simpa using hlen, Or.inr ?_⟩
      simp only
      omega

/-- C4 witness: removing the middle entity of a three-entity schema. -/
theorem removeEntity_no_op_or_clamp_witness :
    (EditorState.mk (some threeEntitySchema) 2).schema = some threeEntitySchema
    ∧ ∃ s2, (removeEntity (EditorState.mk (some threeEntitySchema) 2) 1).schema = some s2
        ∧ s2.entities.length = threeEntitySchema.entities.length - 1
        ∧ ((s2.entities.length = 0
              ∧ (removeEntity (EditorState.mk (some threeEntitySchema) 2) 1).selectedEntity = 0)
           ∨ (removeEntity (EditorState.mk (some threeEntitySchema) 2) 1).selectedEntity
                < s2.entities.length) :=
  ⟨rfl,
    (removeEntity_no_op_or_clamp (EditorState.mk (some threeEntitySchema) 2) 1
      threeEntitySchema rfl).2 (by decide) (by decide)⟩

/-! ### Claim theorems: merge engine, first-wins -/

/-- C2: when two documents both define an entity of the same name with an
attribute of the same name (types and flags free to conflict), the merged
entity keeps exactly the first document's attribute; the later duplicate is
dropped. -/
theorem mergeSchemas_first_attr_wins (n1 v1 n2 v2 en : String) (a1 a2 : Attribute)
    (h : a2.name = a1.name) :
    (mergeSchemas [Schema.mk n1 v1 [Entity.mk en [a1]],
                   Schema.mk n2 v2 [Entity.mk en [a2]]]).entities
      = [Entity.mk en [a1]] := by
  simp [mergeSchemas, addEntityDoc, mergeAttrs, h]

/-- A single input document whose only entity carries two attributes named
`"x"`: the first-introduction branch of the merge clones the attribute list
as-is, so the duplicate survives. -/
def dupAttrSchema : Schema :=
  { name := "S", version := "1"
    entities := [{ name := "E"
                   attributes := [{ name := "x", type := .String, MultiValue := false,
                                    IsKey := false },
                                  { name := "x", type := .Int, MultiValue := true,
                                    IsKey := false }] }] }

/-- C1 counterexample: for the single-object input `dupAttrSchema` the
merged schema has an entity with two attributes named `"x"` — the claimed
attribute-name uniqueness fails on inputs whose own entities carry
duplicate attribute names. -/
theorem mergeSchemas_dup_attr_survives :
    ¬ ∀ t ∈ (mergeSchemasInput (.one dupAttrSchema)).entities, (attrNames t).Nodup := by
  decide

/-- C1 amended: for every merge input, the result never has two entities
sharing a name (unconditionally); and provided each input document's
entities themselves carry no duplicate attribute names, no entity of the
result has two attributes sharing a name. (The proviso is forced: a
first-introduced entity's attribute list is cloned without de-duplication,
see the counterexample.) -/
theorem mergeSchemas_no_duplicates (input : MergeInput) :
    (entityNames (mergeSchemasInput input)).Nodup
    ∧ ((∀ d ∈ input.docs, ∀ e ∈ d.entities, (attrNames e).Nodup) →
        ∀ t ∈ (mergeSchemasInput input).entities, (attrNames t).Nodup) := by
  constructor
  · exact foldl_docs_names_nodup input.docs [] (by simp)
  · intro h
    exact (foldl_docs_nodup input.docs [] (by simp) (by simp) h).2

/-- The spec's end-to-end SCIM example, first document: entity `User` with
`id` (key) and `userName`. -/
def docUserA : Schema :=
  { name := "Connector", version := "1.0.0"
    entities := [{ name := "User"
                   attributes := [{ name := "id", type := .String, MultiValue := false,
                                    IsKey := true },
                                  { name := "userName", type := .String,
                                    MultiValue := false, IsKey := false }] }] }

/-- The spec's end-to-end SCIM example, second document: entity `User` with
`userName` and `active`, and entity `Group` with `id` (key). -/
def docUserB : Schema :=
  { name := "Connector", version := "1.0.0"
    entities := [{ name := "User"
                   attributes := [{ name := "userName", type := .String,
                                    MultiValue := false, IsKey := false },
                                  { name := "active", type := .Bool,
                                    MultiValue := false, IsKey := false }] },
                 { name := "Group"
                   attributes := [{ name := "id", type := .String, MultiValue := false,
                                    IsKey := true }] }] }

/-- C1 witness: the two-document SCIM example, whose per-document entities
have duplicate-free attribute names. -/
theorem mergeSchemas_no_duplicates_witness :
    (entityNames (mergeSchemasInput (.many [docUserA, docUserB]))).Nodup
    ∧ ∀ t ∈ (mergeSchemasInput (.many [docUserA, docUserB])).entities,
        (attrNames t).Nodup :=
  ⟨(mergeSchemas_no_duplicates (.many [docUserA, docUserB])).1,
    (mergeSchemas_no_duplicates (.many [docUserA, docUserB])).2 (by decide)⟩

/-- A schema on which self-merge is *not* the identity: its `name` and
`version` are empty (falsy, so the merge substitutes the defaults) and its
two entities share one name (so the merge collapses them). -/
def selfMergeBad : Schema :=
  { name := "", version := ""
    entities := [{ name := "E", attributes := [] }, { name := "E", attributes := [] }] }

/-- C9 counterexample: merging `[selfMergeBad, selfMergeBad]` yields
`{name := "Connector", version := "1.0.0", entities := [E]}`, which differs
from the original — self-merge is not the identity for every schema. -/
theorem mergeSchemas_self_not_id :
    mergeSchemas [selfMergeBad, selfMergeBad] ≠ selfMergeBad := by
  decide

/-- C9 amended: for a schema whose `name` and `version` are non-empty
(truthy) and whose entity names are pairwise distinct, merging the
two-document sequence `[s, s]` gives back exactly `s` — same name, same
version, and entity-by-entity the same attribute lists in the same order. -/
theorem mergeSchemas_self_idempotent (s : Schema) (hname : s.name ≠ "")
    (hver : s.version ≠ "") (hents : (entityNames s).Nodup) :
    mergeSchemas [s, s] = s := by
  obtain ⟨sn, sv, se⟩ := s
  simp only [entityNames] at hents
  simp only [mergeSchemas, List.find?]
  simp only at hname hver
  rw [decide_eq_true hname, decide_eq_true hver]
  simp only [Option.map_some, Option.getD_some, List.foldl_cons, List.foldl_nil]
  have h1 : se.foldl addEntityDoc [] = se := by
    simpa using foldl_addEntityDoc_fresh se [] (by simp) hents
  rw [h1, foldl_addEntityDoc_self se hents se (fun e he => he)]
  simp

/-- C9 witness: a three-entity schema with truthy name and version. -/
theorem mergeSchemas_self_idempotent_witness :
    threeEntitySchema.name ≠ "" ∧ threeEntitySchema.version ≠ ""
    ∧ (entityNames threeEntitySchema).Nodup
    ∧ mergeSchemas [threeEntitySchema, threeEntitySchema] = threeEntitySchema :=
  ⟨by decide, by decide, by decide,
    mergeSchemas_self_idempotent threeEntitySchema (by decide) (by decide) (by decide)⟩

/-! ### Claim theorems: upload-item statuses (C7) -/

/-- Default item used only as the `getD` fallback in statements. -/
def defItem : Item :=
  { id := "", file := { name := "", size := 0, lastModified := 0 }
    status := .pending, statusCode := none, message := none }

/-- An item that errored during its upload (`setStatus(it.id, "error", ...)`,
line 303), sitting in the list when the poll resolves. -/
def errItem : Item :=
  { id := "a", file := { name := "a.xml", size := 3, lastModified := 1 }
    status := .error, statusCode := none, message := some "500 error" }

/-- C7 counterexample: an item whose status is the terminal `error` is moved
to `done` by the successful-poll broadcast of the same submission
(`setItems(prev => prev.map(i => ({...i, status: "done", ...})))`,
line 322) — `error` is not terminal across that step. -/
theorem finishAll_overwrites_error :
    errItem.status = .error
    ∧ (finishAll [errItem] true "").map Item.status = [Status.done]
    ∧ Status.done ≠ Status.error := by
  decide

/-- C7 amended: a `setStatus` call addressed to a different item id leaves
an item (in particular one in `error` or `done`) unchanged, but the final
poll broadcast of `submitAll` overwrites every item's status regardless of
its previous value: all `done` with message "Completed" on success, all
`error` with the failure message on failure. -/
theorem setStatus_frame_and_broadcast (items : List Item) (id : String) (st : Status)
    (msg : Option String) (errMsg : String) :
    (∀ j, j < items.length → (items.getD j defItem).id ≠ id →
        (setStatus items id st msg).getD j defItem = items.getD j defItem)
    ∧ (∀ it ∈ finishAll items true errMsg,
        it.status = .done ∧ it.message = some "Completed")
    ∧ (∀ it ∈ finishAll items false errMsg,
        it.status = .error ∧ it.message = some errMsg) := by
  refine ⟨?_, ?_, ?_⟩
  · intro j hj hne
    induction items generalizing j with
    | nil => simp at hj
    | cons x rest ih =>
      cases j with
      | zero =>
        simp only [List.getD_cons_zero] at hne ⊢
        simp [setStatus, hne]
      | succ m =>
        simp only [List.getD_cons_succ] at hne ⊢
        simpa [setStatus] using ih m (by simpa using hj) hne
  · intro it hit
    rcases List.mem_map.mp (by simpa [finishAll] using hit) with ⟨u, _, rfl⟩
    exact ⟨rfl, rfl⟩
  · intro it hit
    rcases List.mem_map.mp (by simpa [finishAll] using hit) with ⟨u, _, rfl⟩
    exact ⟨rfl, rfl⟩

/-- C7 amended witness: the errored item is untouched by a `setStatus`
addressed to another id. -/
theorem setStatus_frame_and_broadcast_witness :
    0 < ([errItem] : List Item).length
    ∧ (setStatus [errItem] "b" .done none).getD 0 defItem = errItem :=
  ⟨by decide,
    ((setStatus_frame_and_broadcast [errItem] "b" .done none "E").1 0 (by decide)
        (by decide)).trans (by decide)⟩

/-! ### Claim theorems: onPick de-duplication (C10) -/

theorem mapSet_mem (m : List (String × Item)) (k : String) (v : Item)
    (p : String × Item) (hp : p ∈ mapSet m k v) :
    (p ∈ m ∧ p.1 ≠ k) ∨ p = (k, v) := by
  unfold mapSet at hp
  split at hp
  · rename_i hc
    rcases List.mem_map.mp hp with ⟨q, hq, hqe⟩
    by_cases h : q.1 = k
    · right; rw [if_pos h] at hqe; exact hqe.symm
    · left; rw [if_neg h] at hqe; exact hqe ▸ ⟨hq, h⟩
  · rcases List.mem_append.mp hp with h | h
    · rename_i hc
      left
      refine ⟨h, fun he => hc ?_⟩
      exact List.any_eq_true.mpr ⟨p, h, by simp [he]⟩
    · right; simpa using h

theorem mapSet_keys_nodup (m : List (String × Item)) (k : String) (v : Item)
    (h : (m.map Prod.fst).Nodup) : ((mapSet m k v).map Prod.fst).Nodup := by
  unfold mapSet
  split
  · rw [List.map_map]
    have : ∀ p ∈ m, (Prod.fst ∘ fun p => if p.1 = k then (k, v) else p) p = p.1 := by
      intro p _
      by_cases hp : p.1 = k <;> simp [Function.comp, hp]
    rw [List.map_congr_left this]
    exact h
  · rename_i hc
    rw [List.map_append]
    simp only [List.map_cons, List.map_nil]
    rw [List.nodup_append]
    refine ⟨h, List.nodup_singleton _, ?_⟩
    intro x hx hx1
    simp only [List.mem_singleton] at hx1
    subst hx1
    rcases List.mem_map.mp hx with ⟨q, hq, hqk⟩
    exact hc (List.any_eq_true.mpr ⟨q, hq, by simp [hqk]⟩)

theorem mapSet_entry_key (m : List (String × Item)) (k : String) (v : Item)
    (hm : ∀ p ∈ m, p.1 = itemKey p.2) (hk : k = itemKey v) :
    ∀ p ∈ mapSet m k v, p.1 = itemKey p.2 := by
  intro p hp
  rcases mapSet_mem m k v p hp with ⟨h, _⟩ | h
  · exact hm p h
  · rw [h]; exact hk

theorem buildMap_inv (xs : List Item) :
    ∀ m : List (String × Item), (m.map Prod.fst).Nodup →
      (∀ p ∈ m, p.1 = itemKey p.2) →
      (((xs.foldl (fun m n => mapSet m (itemKey n) n) m).map Prod.fst).Nodup
        ∧ ∀ p ∈ xs.foldl (fun m n => mapSet m (itemKey n) n) m, p.1 = itemKey p.2) := by
  induction xs with
  | nil => intro m h1 h2; exact ⟨h1, h2⟩
  | cons x rest ih =>
    intro m h1 h2
    simp only [List.foldl_cons]
    exact ih (mapSet m (itemKey x) x) (mapSet_keys_nodup m (itemKey x) x h1)
      (mapSet_entry_key m (itemKey x) x h2 rfl)

theorem fold_mapSet_mem (ns : List Item) :
    ∀ (m : List (String × Item)) (p : String × Item),
      p ∈ ns.foldl (fun m n => mapSet m (itemKey n) n) m →
      (p ∈ m ∧ p.1 ∉ ns.map itemKey) ∨ ∃ n ∈ ns, p = (itemKey n, n) := by
  induction ns with
  | nil => intro m p hp; exact Or.inl ⟨hp, by simp⟩
  | cons n rest ih =>
    intro m p hp
    simp only [List.foldl_cons] at hp
    rcases ih (mapSet m (itemKey n) n) p hp with ⟨hmem, hkeys⟩ | ⟨n2, hn2, rfl⟩
    · rcases mapSet_mem m (itemKey n) n p hmem with ⟨hm, hne⟩ | he
      · left
        refine ⟨hm, ?_⟩
        simp only [List.map_cons, List.mem_cons]
        rintro (h | h)
        · exact hne h
        · exact hkeys h
      · right; exact ⟨n, by simp, he⟩
    · right; exact ⟨n2, by simp [hn2], rfl⟩

theorem mkItems_status (uuids : Nat → String) :
    ∀ (files : List FileInfo) (i : Nat), ∀ it ∈ mkItems uuids files i,
      it.status = .pending := by
  intro files
  induction files with
  | nil => intro i it hit; simp [mkItems] at hit
  | cons f rest ih =>
    intro i it hit
    rcases (by simpa [mkItems] using hit : it = mkItem f (uuids i) ∨ it ∈ mkItems uuids rest (i + 1)) with h | h
    · rw [h]; rfl
    · exact ih (i + 1) it h

theorem mkItems_keys (uuids : Nat → String) :
    ∀ (files : List FileInfo) (i : Nat),
      (mkItems uuids files i).map itemKey = files.map fileKey := by
  intro files
  induction files with
  | nil => intro i; rfl
  | cons f rest ih =>
    intro i
    simp only [mkItems, List.map_cons]
    rw [ih (i + 1)]
    rfl

/-- C10: after any file pick, whatever the previous list held, the
resulting item list never contains two items whose files agree on both name
and size (the `` `${name}-${size}` `` keys are pairwise distinct); and every
resulting item whose key matches a just-picked file is one of the fresh
items — status `pending`, fresh id — not the previously listed one. -/
theorem onPick_no_duplicate_keys (prev : List Item) (files : List FileInfo)
    (uuids : Nat → String) :
    ((onPick prev files uuids).map itemKey).Nodup
    ∧ ∀ it ∈ onPick prev files uuids,
        itemKey it ∈ files.map fileKey →
        it.status = .pending ∧ ∃ n ∈ mkItems uuids files 0, it = n := by
  have hm0 := buildMap_inv prev [] (by simp) (by simp)
  have hm1 := buildMap_inv (mkItems uuids files 0)
    (prev.foldl (fun m p => mapSet m (itemKey p) p) []) hm0.1 hm0.2
  constructor
  · have hkeys : (onPick prev files uuids).map itemKey
        = ((mkItems uuids files 0).foldl (fun m n => mapSet m (itemKey n) n)
            (prev.foldl (fun m p => mapSet m (itemKey p) p) [])).map Prod.fst := by
      simp only [onPick, List.map_map]
      apply List.map_congr_left
      intro p hp
      simp only [Function.comp_apply]
      exact (hm1.2 p hp).symm
    rw [hkeys]
    exact hm1.1
  · intro it hit hkey
    rcases List.mem_map.mp hit with ⟨p, hp, rfl⟩
    rcases fold_mapSet_mem (mkItems uuids files 0) _ p hp with ⟨_, hnk⟩ | ⟨n, hn, rfl⟩
    · exact absurd (by rw [← mkItems_keys uuids files 0] at hkey
                       rw [hm1.2 p hp]
                       exact hkey) hnk
    · exact ⟨mkItems_status uuids files 0 n hn, n, hn, rfl⟩

/-- A previously listed item for `a.json` (10 bytes) in a non-pending
state, about to be re-picked. -/
def staleItem : Item :=
  { id := "old", file := { name := "a.json", size := 10, lastModified := 1 }
    status := .error, statusCode := none, message := none }

/-- The re-picked `a.json`: same name and size, newer modification time. -/
def fileA2 : FileInfo := { name := "a.json", size := 10, lastModified := 2 }

/-- C10 witness: re-picking a file with the key of a listed item. -/
theorem onPick_no_duplicate_keys_witness :
    ((onPick [staleItem] [fileA2] (fun _ => "w")).map itemKey).Nodup
    ∧ (mkItem fileA2 "w").status = .pending :=
  ⟨(onPick_no_duplicate_keys [staleItem] [fileA2] (fun _ => "w")).1,
    ((onPick_no_duplicate_keys [staleItem] [fileA2] (fun _ => "w")).2
      (mkItem fileA2 "w") (by decide) (by decide)).1⟩

/-! ### Claim theorems: fixed-delay polling (C5) -/

theorem pollLoop_exhausted (resp : Nat → FetchResult) :
    ∀ (ds : List Nat) (i : Nat),
      (∀ k, k < ds.length → isPendingResp (resp (i + k)) = true) →
      pollLoop resp i ds = (.failure "No result within polling window", ds.length) := by
  intro ds
  induction ds with
  | nil => intro i _; rfl
  | cons d rest ih =>
    intro i h
    have h0 : isPendingResp (resp i) = true := by simpa using h 0 (by simp)
    cases hr : resp i with
    | notOk e => rw [hr] at h0; simp [isPendingResp] at h0
    | okResp j =>
      rw [hr] at h0
      simp only [isPendingResp, Bool.not_eq_true'] at h0
      simp only [pollLoop, hr, h0, Bool.false_eq_true, if_false, List.length_cons]
      rw [ih (i + 1) (fun k hk => by
        have := h (k + 1) (by simpa using Nat.succ_lt_succ hk)
        simpa [Nat.add_assoc, Nat.add_comm, Nat.add_left_comm] using this)]

theorem pollLoop_first_payload (resp : Nat → FetchResult) :
    ∀ (ds : List Nat) (i k : Nat), k < ds.length →
      (∀ m, m < k → isPendingResp (resp (i + m)) = true) →
      ∀ jr, resp (i + k) = .okResp jr → (jr.jok && resultTruthy jr.result) = true →
      pollLoop resp i ds = (.success (jr.result.getD ""), k + 1) := by
  intro ds
  induction ds with
  | nil => intro i k hk; simp at hk
  | cons d rest ih =>
    intro i k hk hpend jr hjr hsucc
    cases k with
    | zero =>
      rw [Nat.add_zero] at hjr
      simp [pollLoop, hjr, hsucc]
    | succ m =>
      have h0 : isPendingResp (resp i) = true := by simpa using hpend 0 (Nat.succ_pos m)
      cases hr : resp i with
      | notOk e => rw [hr] at h0; simp [isPendingResp] at h0
      | okResp j =>
        rw [hr] at h0
        simp only [isPendingResp, Bool.not_eq_true'] at h0
        simp only [pollLoop, hr, h0, Bool.false_eq_true, if_false]
        rw [ih (i + 1) m (by simpa using hk)
          (fun q hq => by
            have := hpend (q + 1) (by simpa using Nat.succ_lt_succ hq)
            simpa [Nat.add_assoc, Nat.add_comm, Nat.add_left_comm] using this)
          jr (by rw [← hjr]; ring_nf) hsucc]

/-- C5: over the fixed 5-interval schedule, the poll loop performs one poll
per executed wait (the returned count); provided every response in the
window is well-formed (HTTP-OK), it returns success at the first response
whose body carries a truthy payload, after exactly that many polls; every
well-formed response without a payload lets the loop continue as "pending"
rather than fail; and the terminal "No result within polling window"
failure arises exactly by exhausting all 5 scheduled polls. -/
theorem pollResultWithDelays_spec (resp : Nat → FetchResult)
    (hwf : ∀ i, i < POLL_DELAYS_MS.length → ∃ j, resp i = FetchResult.okResp j) :
    ((∀ i, i < POLL_DELAYS_MS.length → isPendingResp (resp i) = true) →
        pollResultWithDelays resp
          = (.failure "No result within polling window", POLL_DELAYS_MS.length))
    ∧ (∀ k, k < POLL_DELAYS_MS.length →
        (∀ m, m < k → isPendingResp (resp m) = true) →
        isPendingResp (resp k) = false →
        ∃ jr, resp k = .okResp jr ∧ (jr.jok && resultTruthy jr.result) = true
          ∧ pollResultWithDelays resp = (.success (jr.result.getD ""), k + 1)) := by
  constructor
  · intro hp
    exact pollLoop_exhausted resp POLL_DELAYS_MS 0
      (fun k hk => by simpa using hp k hk)
  · intro k hk hpend hnp
    obtain ⟨jr, hjr⟩ := hwf k hk
    have hsucc : (jr.jok && resultTruthy jr.result) = true := by
      rw [hjr] at hnp
      simpa [isPendingResp] using hnp
    refine ⟨jr, hjr, hsucc, ?_⟩
    exact pollLoop_first_payload resp POLL_DELAYS_MS 0 k hk
      (fun m hm => by simpa using hpend m hm) jr (by simpa using hjr) hsucc

/-- The response sequence of the witness run: pending twice, then a payload. -/
def respW : Nat → FetchResult :=
  fun i => if i = 2 then .okResp { jok := true, result := some "R" }
           else .okResp { jok := true, result := none }

/-- C5 witness: a run that goes pending, pending, payload — success after
exactly 3 polls. -/
theorem pollResultWithDelays_spec_witness :
    isPendingResp (respW 2) = false
    ∧ ∃ jr, respW 2 = .okResp jr ∧ (jr.jok && resultTruthy jr.result) = true
        ∧ pollResultWithDelays respW = (.success (jr.result.getD ""), 2 + 1) :=
  ⟨by decide,
    (pollResultWithDelays_spec respW
        (fun i _ => by
          by_cases h : i = 2 <;> simp [respW, h])).2 2 (by decide) (by decide) (by decide)⟩

/-! ### Claim theorems: correlation-id generation (C6) -/

theorem alphaChar_mem (v : Nat) : alphaChar v ∈ ALPHABET.data := by
  have hlt : v % ALPHABET.length < ALPHABET.data.length :=
    Nat.mod_lt _ (by decide)
  unfold alphaChar
  rw [List.getD_eq_getElem ALPHABET.data ' ' hlt]
  exact List.getElem_mem hlt

theorem id30Aux_spec (src : Nat → Nat) :
    ∀ (fuel need j : Nat) (l : List Char), id30Aux src need fuel j = some l →
      l.length = need
      ∧ ∀ c ∈ l, ∃ v, v < rejectLimit ∧ (∃ m, m ≥ j ∧ src m = v) ∧ c = alphaChar v := by
  intro fuel
  induction fuel with
  | zero =>
    intro need j l h
    cases need with
    | zero =>
      simp only [id30Aux, Option.some_inj] at h
      subst h
      exact ⟨rfl, by simp⟩
    | succ n => simp [id30Aux] at h
  | succ f ih =>
    intro need j l h
    cases need with
    | zero =>
      simp only [id30Aux, Option.some_inj] at h
      subst h
      exact ⟨rfl, by simp⟩
    | succ n =>
      simp only [id30Aux] at h
      split at h
      · rename_i hv
        rcases Option.map_eq_some'.mp h with ⟨cs, hcs, rfl⟩
        obtain ⟨hlen, hmem⟩ := ih n (j + 1) cs hcs
        refine ⟨by simp [hlen], ?_⟩
        intro c hc
        rcases List.mem_cons.mp hc with rfl | hc2
        · exact ⟨src j, hv, ⟨j, Nat.le_refl j, rfl⟩, rfl⟩
        · rcases hmem c hc2 with ⟨v, hv2, ⟨m, hm, hsrc⟩, hch⟩
          exact ⟨v, hv2, ⟨m, by omega, hsrc⟩, hch⟩
      · obtain ⟨hlen, hmem⟩ := ih (n + 1) (j + 1) l h
        refine ⟨hlen, ?_⟩
        intro c hc
        rcases hmem c hc with ⟨v, hv2, ⟨m, hm, hsrc⟩, hch⟩
        exact ⟨v, hv2, ⟨m, by omega, hsrc⟩, hch⟩

/-- C6: whenever `id30Base62` (length 30) returns, the string has exactly
30 characters, each drawn from the 62-symbol alphabet; every character is
produced as `ALPHABET[v % 62]` from some byte `v` of the source that is
strictly below the rejection limit 248 = 62·4 (bytes ≥ 248 never produce a
symbol); and each of the 62 alphabet positions has exactly 248/62 = 4
accepted byte values mapping to it, so a uniform byte source makes every
symbol equiprobable at every position. -/
theorem id30Base62_spec (src : Nat → Nat) (fuel : Nat) (s : String)
    (h : id30Base62 src 30 fuel = some s) :
    s.length = 30
    ∧ (∀ c ∈ s.data, c ∈ ALPHABET.data)
    ∧ (∀ c ∈ s.data, ∃ v, v < rejectLimit ∧ (∃ m, src m = v) ∧ c = alphaChar v)
    ∧ rejectLimit = 248
    ∧ (∀ k, k < ALPHABET.length →
        ((Finset.range rejectLimit).filter (fun v => v % ALPHABET.length = k)).card
          = rejectLimit / ALPHABET.length) := by
  rcases Option.map_eq_some'.mp h with ⟨cs, hcs, rfl⟩
  obtain ⟨hlen, hmem⟩ := id30Aux_spec src fuel 30 0 cs hcs
  have hdata : (List.asString cs).data = cs := rfl
  refine ⟨?_, ?_, ?_, by decide, ?_⟩
  · show cs.length = 30
    exact hlen
  · intro c hc
    rw [hdata] at hc
    rcases hmem c hc with ⟨v, _, _, rfl⟩
    exact alphaChar_mem v
  · intro c hc
    rw [hdata] at hc
    rcases hmem c hc with ⟨v, hv, ⟨m, _, hsrc⟩, rfl⟩
    exact ⟨v, hv, ⟨m, hsrc⟩, rfl⟩
  · decide

/-- C6 witness: the identity byte source accepts its first 30 bytes. -/
theorem id30Base62_spec_witness :
    id30Base62 (fun i => i) 30 60 = some "0123456789abcdefghijklmnopqrst"
    ∧ ("0123456789abcdefghijklmnopqrst" : String).length = 30 :=
  ⟨by decide, (id30Base62_spec (fun i => i) 60 _ (by decide)).1⟩

/-- C2 witness: `"User"."email"` as `String` in the first document and as
`Int` in the second — the merged type is the first document's. -/
theorem mergeSchemas_first_attr_wins_witness :
    (Attribute.mk "email" .Int false false).name
        = (Attribute.mk "email" .String false false).name
    ∧ (mergeSchemas
        [Schema.mk "A" "1" [Entity.mk "User" [Attribute.mk "email" .String false false]],
         Schema.mk "B" "2" [Entity.mk "User" [Attribute.mk "email" .Int false false]]]).entities
      = [Entity.mk "User" [Attribute.mk "email" .String false false]] :=
  ⟨rfl, mergeSchemas_first_attr_wins "A" "1" "B" "2" "User"
    (Attribute.mk "email" .String false false) (Attribute.mk "email" .Int false false) rfl⟩

end PSXml
